import Mathlib

/-!
Verification of the `keystore` package of go-iden3 (`keystore/keystore.go`).

Shallow embedding conventions:
* Byte slices are `List Nat` (`Bytes`); fixed-size Go arrays (`[32]byte`,
  `[24]byte`) are byte lists whose length is carried as a hypothesis where it
  matters, and Go's `copy` into a zero-initialized fixed array is `copyFixed`.
* Go maps (`map[hex32]EncryptedData`, the cache) are association lists with
  unique keys, with `mapLookup` / `mapInsert` for indexing and assignment.
* External cryptographic collaborators (scrypt via `golang.org/x/crypto/scrypt`,
  NaCl secretbox, the babyjub curve library, the mimc7 permutation, JSON
  marshalling) are not code of this repository; they are abstracted as function
  parameters, and the properties the spec attributes to them (AEAD round-trip,
  AEAD rejection of tampered input) appear as explicit hypotheses.
* Fallible Go calls returning `(T, error)` become `Except String T` or
  `Option T`.
-/

namespace Keystore

/-- Byte slices (`[]byte`): each element is intended to be a byte value. -/
abbrev Bytes := List Nat

/-- Go's `copy(dst[:], src)` into a zero-initialized fixed array of length `n`:
the first `min n src.length` bytes come from `src`, the rest stay zero. -/
def copyFixed (n : Nat) (src : Bytes) : Bytes :=
  src.take n ++ List.replicate (n - src.length) 0

theorem copyFixed_length (n : Nat) (src : Bytes) : (copyFixed n src).length = n := by
  simp only [copyFixed, List.length_append, List.length_take, List.length_replicate]
  omega

theorem copyFixed_of_length_eq {n : Nat} {src : Bytes} (h : src.length = n) :
    copyFixed n src = src := by
  subst h
  simp [copyFixed]

/-- Lookup in a Go map modelled as an association list
(`v, ok := m[k]`). -/
def mapLookup {α β : Type} [DecidableEq α] : List (α × β) → α → Option β
  | [], _ => none
  | kv :: rest, k => if kv.1 = k then some kv.2 else mapLookup rest k

/-- Assignment in a Go map modelled as an association list (`m[k] = v`):
replace the existing binding for `k`, or append a new one. -/
def mapInsert {α β : Type} [DecidableEq α] (m : List (α × β)) (k : α) (v : β) :
    List (α × β) :=
  if m.any (fun kv => kv.1 = k) then
    m.map (fun kv => if kv.1 = k then (k, v) else kv)
  else
    m ++ [(k, v)]

/-- `EncryptedData` from keystore.go: key-derivation parameters, salt, nonce and
ciphertext of one encrypted secret key. -/
structure EncryptedData where
  salt : Bytes
  scryptN : Nat
  scryptP : Nat
  nonce : Bytes
  encryptedData : Bytes
deriving DecidableEq, Repr

/-- The external cryptographic collaborators used by EncryptData/DecryptData:
`kdf` models `scrypt.Key pass salt N r=8 P dkLen=32` (which can fail on bad
parameters), `sealBox` models `secretbox.Seal(nil, data, &nonce, &key)` and
`aeadOpen` models `secretbox.Open(nil, ct, &nonce, &key)` (which fails on a
tag mismatch). -/
structure Crypto where
  kdf : Bytes → Bytes → Nat → Nat → Option Bytes
  sealBox : Bytes → Bytes → Bytes → Bytes
  aeadOpen : Bytes → Bytes → Bytes → Option Bytes

/-- `EncryptData` from keystore.go. The 32-byte random salt and 24-byte random
nonce are drawn from `crypto/rand`; they enter the embedding as the explicit
arguments `salt` and `nonce`. -/
def EncryptData (c : Crypto) (data pass : Bytes) (scryptN scryptP : Nat)
    (salt nonce : Bytes) : Option EncryptedData :=
  match c.kdf pass salt scryptN scryptP with
  | none => none
  | some derivedKey =>
    let key := copyFixed 32 derivedKey
    let encryptedData := c.sealBox key nonce data
    some { salt := salt, scryptN := scryptN, scryptP := scryptP,
           nonce := nonce, encryptedData := encryptedData }

/-- `DecryptData` from keystore.go: rederive the key from the record's own
salt/ScryptN/ScryptP, copy the record's nonce into a 24-byte array, open the
secretbox; a tag mismatch yields the error "Invalid encrypted data". -/
def DecryptData (c : Crypto) (encData : EncryptedData) (pass : Bytes) :
    Except String Bytes :=
  match c.kdf pass encData.salt encData.scryptN encData.scryptP with
  | none => Except.error "scrypt failed"
  | some derivedKey =>
    let key := copyFixed 32 derivedKey
    let nonce := copyFixed 24 encData.nonce
    match c.aeadOpen key nonce encData.encryptedData with
    | none => Except.error "Invalid encrypted data"
    | some data => Except.ok data

end Keystore

namespace Keystore

/-- C3: decrypting an `EncryptData` record with the same passphrase returns the
original data; `DecryptData` rederives the key from the record's own stored
salt, ScryptN and ScryptP, so the round-trip does not depend on any ambient
default parameters. The AEAD round-trip property of secretbox is the
hypothesis `hopen`. -/
theorem decryptData_encryptData_roundtrip (c : Crypto) (data pass salt nonce : Bytes)
    (scryptN scryptP : Nat) (enc : EncryptedData)
    (hnonce : nonce.length = 24)
    (hopen : ∀ k n d, c.aeadOpen k n (c.sealBox k n d) = some d)
    (henc : EncryptData c data pass scryptN scryptP salt nonce = some enc) :
    DecryptData c enc pass = Except.ok data := by
  unfold EncryptData at henc
  cases hkdf : c.kdf pass salt scryptN scryptP with
  | none => rw [hkdf] at henc; exact absurd henc (by simp)
  | some derivedKey =>
    rw [hkdf] at henc
    simp only [Option.some.injEq] at henc
    subst henc
    unfold DecryptData
    simp only [hkdf, copyFixed_of_length_eq hnonce, hopen]

/-- Witness for C3 at concrete inputs: a trivial crypto instance satisfying the
AEAD round-trip hypothesis, data `[1, 2, 3]`, a 24-byte nonce. -/
def cryptoId : Crypto where
  kdf := fun _ _ _ _ => some (List.replicate 32 7)
  sealBox := fun _ _ d => d
  aeadOpen := fun _ _ ct => some ct

theorem decryptData_encryptData_roundtrip_witness :
    DecryptData cryptoId
      { salt := List.replicate 32 0, scryptN := 4096, scryptP := 6,
        nonce := List.replicate 24 0, encryptedData := [1, 2, 3] } [9] =
      Except.ok [1, 2, 3] :=
  decryptData_encryptData_roundtrip cryptoId [1, 2, 3] [9]
    (List.replicate 32 0) (List.replicate 24 0) 4096 6 _
    (by simp) (fun _ _ _ => rfl) rfl

/-- `KeyStoreParams` from keystore.go. -/
structure KeyStoreParams where
  scryptN : Nat
  scryptP : Nat
deriving DecidableEq, Repr

/-- The mutable part of a `KeyStore`: the persisted map from 32-byte compressed
public key to `EncryptedData`, and the cache of decrypted secret keys
(compressed public key to 32-byte secret key buffer). `storage` and the
reader-writer mutex of the Go struct are modelled where the individual
operations need them. -/
structure KeyStoreState where
  params : KeyStoreParams
  encryptedKeys : List (Bytes × EncryptedData)
  cache : List (Bytes × Bytes)
deriving DecidableEq, Repr

/-- `UnlockKey` from keystore.go: look the record up (error if absent), decrypt
it with `pass`, copy the plaintext into a zero-initialized 32-byte `PrivKey`
array, and store that in the cache. Returns the Go error value together with
the key store state after the call (the receiver is mutated in place in Go). -/
def UnlockKey (c : Crypto) (ks : KeyStoreState) (pk : Bytes) (pass : Bytes) :
    Except String Unit × KeyStoreState :=
  match mapLookup ks.encryptedKeys pk with
  | none => (Except.error "Public key not found in the key store", ks)
  | some encryptedKey =>
    match DecryptData c encryptedKey pass with
    | Except.error e => (Except.error e, ks)
    | Except.ok skBuf =>
      let sk := copyFixed 32 skBuf
      (Except.ok (), { ks with cache := mapInsert ks.cache pk sk })

/-- C5: `DecryptData` fails closed. Whenever the AEAD rejects the record's
ciphertext under the key derived from the record's own parameters — which by
the authentication property of secretbox is what happens on a wrong passphrase
or on any bit flip in ciphertext or nonce (hypothesis `hreject`) —
`DecryptData` returns the "Invalid encrypted data" error and no plaintext, and
`UnlockKey` propagates that error and leaves the key store state (in
particular the cache) unchanged. -/
theorem decryptData_fails_closed (c : Crypto) (ks : KeyStoreState)
    (pk pass : Bytes) (enc : EncryptedData) (dk : Bytes)
    (hlook : mapLookup ks.encryptedKeys pk = some enc)
    (hkdf : c.kdf pass enc.salt enc.scryptN enc.scryptP = some dk)
    (hreject : c.aeadOpen (copyFixed 32 dk) (copyFixed 24 enc.nonce)
        enc.encryptedData = none) :
    DecryptData c enc pass = Except.error "Invalid encrypted data" ∧
    UnlockKey c ks pk pass =
      (Except.error "Invalid encrypted data", ks) := by
  have hdec : DecryptData c enc pass = Except.error "Invalid encrypted data" := by
    unfold DecryptData
    simp only [hkdf, hreject]
  refine ⟨hdec, ?_⟩
  unfold UnlockKey
  simp only [hlook, hdec]

/-- Witness for C5: a crypto instance whose AEAD rejects everything, applied to
a singleton key store at a concrete public key. -/
def cryptoReject : Crypto where
  kdf := fun _ _ _ _ => some (List.replicate 32 7)
  sealBox := fun _ _ d => d
  aeadOpen := fun _ _ _ => none

def encDataEx : EncryptedData :=
  { salt := List.replicate 32 0, scryptN := 4096, scryptP := 6,
    nonce := List.replicate 24 0, encryptedData := [1, 2, 3] }

def ksStateEx : KeyStoreState :=
  { params := { scryptN := 4096, scryptP := 6 },
    encryptedKeys := [([5], encDataEx)], cache := [] }

theorem decryptData_fails_closed_witness :
    DecryptData cryptoReject encDataEx [9] =
      Except.error "Invalid encrypted data" ∧
    UnlockKey cryptoReject ksStateEx [5] [9] =
      (Except.error "Invalid encrypted data", ksStateEx) :=
  decryptData_fails_closed cryptoReject ksStateEx [5] [9] encDataEx
    (List.replicate 32 7) rfl rfl rfl

/-- C10: `UnlockKey` does not validate the decrypted plaintext's length. If the
record is present and decryption returns a plaintext `skBuf` of any length,
`UnlockKey` succeeds and caches the 32-byte buffer obtained by copying the
first `min 32 skBuf.length` bytes of `skBuf` into a zero-initialized 32-byte
array: longer plaintexts are truncated and shorter ones zero-padded, always
yielding a 32-byte cached secret. -/
theorem unlockKey_no_plaintext_length_check (c : Crypto) (ks : KeyStoreState)
    (pk pass : Bytes) (enc : EncryptedData) (skBuf : Bytes)
    (hlook : mapLookup ks.encryptedKeys pk = some enc)
    (hdec : DecryptData c enc pass = Except.ok skBuf) :
    UnlockKey c ks pk pass =
      (Except.ok (), { ks with cache := mapInsert ks.cache pk (copyFixed 32 skBuf) }) ∧
    copyFixed 32 skBuf = skBuf.take 32 ++ List.replicate (32 - skBuf.length) 0 ∧
    (copyFixed 32 skBuf).length = 32 := by
  refine ⟨?_, rfl, copyFixed_length 32 skBuf⟩
  unfold UnlockKey
  simp only [hlook, hdec]

/-- Witness for C10: a 5-byte plaintext is cached zero-padded to 32 bytes and
unlocking succeeds. -/
def cryptoShortPlain : Crypto where
  kdf := fun _ _ _ _ => some (List.replicate 32 7)
  sealBox := fun _ _ d => d
  aeadOpen := fun _ _ _ => some [1, 2, 3, 4, 5]

def ksStateEx2 : KeyStoreState :=
  { params := { scryptN := 4096, scryptP := 6 },
    encryptedKeys := [([5], encDataEx)], cache := [] }

theorem unlockKey_no_plaintext_length_check_witness :
    (UnlockKey cryptoShortPlain ksStateEx2 [5] [9]).1 = Except.ok () ∧
    mapLookup (UnlockKey cryptoShortPlain ksStateEx2 [5] [9]).2.cache [5] =
      some (copyFixed 32 [1, 2, 3, 4, 5]) ∧
    (copyFixed 32 [1, 2, 3, 4, 5]).length = 32 := by
  have h := unlockKey_no_plaintext_length_check cryptoShortPlain ksStateEx2
    [5] [9] encDataEx [1, 2, 3, 4, 5] rfl rfl
  refine ⟨by rw [h.1], ?_, h.2.2⟩
  rw [h.1]
  simp [ksStateEx2, mapInsert, mapLookup]

/-- `babyjub.SetBigIntFromLEBytes`: the unsigned little-endian integer encoded
by a byte slice (byte 0 is least significant). -/
def setBigIntFromLEBytes (bs : Bytes) : Nat :=
  bs.foldr (fun b acc => b + 256 * acc) 0

/-- The ordered list of integers that `mimc7HashBytes` in keystore.go feeds to
`mimc7.Hash`, exactly as the Go code computes it: full chunks are
`msg[31*i : 31*(i+1)]` for `i < len(msg)/31`, and when `len(msg) % 31 != 0`
the final element comes from the slice `msg[len(msg)/31:]` (note: the lower
bound is the quotient itself, not a byte offset). -/
def mimc7HashBytesElems (msg : Bytes) : List Nat :=
  ((List.range (msg.length / 31)).map
    (fun i => setBigIntFromLEBytes ((msg.drop (31 * i)).take 31))) ++
  (if msg.length % 31 ≠ 0 then
    [setBigIntFromLEBytes (msg.drop (msg.length / 31))]
  else [])

/-- The chunk sequence as §4.4 of the spec describes it: consecutive 31-byte
chunks where only the final chunk may be short, so the final short chunk is
`msg[31*(len(msg)/31):]`, the last `len(msg) % 31` bytes. -/
def mimc7HashBytesElemsSpec (msg : Bytes) : List Nat :=
  ((List.range (msg.length / 31)).map
    (fun i => setBigIntFromLEBytes ((msg.drop (31 * i)).take 31))) ++
  (if msg.length % 31 ≠ 0 then
    [setBigIntFromLEBytes (msg.drop (31 * (msg.length / 31)))]
  else [])

/-- `mimc7HashBytes` from keystore.go with the external `mimc7.Hash`
permutation abstracted as `hash`. -/
def mimc7HashBytes (hash : List Nat → Nat) (msg : Bytes) : Nat :=
  hash (mimc7HashBytesElems msg)

/-- C1: refuted on the code. For the 32-byte message `0,1,...,31` the final
chunk the code hashes is `msg[1:]` — the 31 bytes `1..31`, overlapping the
first chunk — because the Go slice lower bound is `len(msg)/31 = 1` instead of
the byte offset `31*(len(msg)/31) = 31`; the claim (and the code's own
doc comment, "blocks of 31 bytes") requires the final chunk to be the last
`32 mod 31 = 1` bytes, namely `[31]`. -/
theorem mimc7HashBytes_final_chunk_bug :
    mimc7HashBytesElems (List.range 32) ≠ mimc7HashBytesElemsSpec (List.range 32) ∧
    mimc7HashBytesElems (List.range 32) =
      [setBigIntFromLEBytes ((List.range 32).take 31),
       setBigIntFromLEBytes ((List.range 32).drop 1)] ∧
    mimc7HashBytesElemsSpec (List.range 32) =
      [setBigIntFromLEBytes ((List.range 32).take 31),
       setBigIntFromLEBytes [31]] ∧
    ((List.range 32).drop 1).length = 31 ∧
    32 % 31 = 1 := by
  decide

/-- `Keys` from keystore.go: the compressed public keys present in the store
(the Go code iterates the map; here, first components of the association
list). -/
def Keys (ks : KeyStoreState) : List Bytes :=
  ks.encryptedKeys.map Prod.fst

/-- `ImportKey` from keystore.go. External collaborators as parameters:
`pub sk` models `(*babyjub.Point)(sk.Pub()).Compress()`, `marshal` models
`json.Marshal` of the key map, `write` models `ks.storage.Write`. The random
salt and nonce consumed by the inner `EncryptData` are explicit. The Go method
mutates the receiver's `encryptedKeys` map in place before marshalling and
writing; the returned state reflects the receiver after the call. -/
def ImportKey (c : Crypto) (pub : Bytes → Bytes)
    (marshal : List (Bytes × EncryptedData) → Option Bytes)
    (write : Bytes → Except String Unit)
    (ks : KeyStoreState) (sk pass salt nonce : Bytes) :
    Except String Bytes × KeyStoreState :=
  match EncryptData c sk pass ks.params.scryptN ks.params.scryptP salt nonce with
  | none => (Except.error "encrypt failed", ks)
  | some encryptedKey =>
    let pubCompressed := pub sk
    let ks1 := { ks with
      encryptedKeys := mapInsert ks.encryptedKeys pubCompressed encryptedKey }
    match marshal ks1.encryptedKeys with
    | none => (Except.error "marshal failed", ks1)
    | some encryptedKeysJSON =>
      match write encryptedKeysJSON with
      | Except.error e => (Except.error e, ks1)
      | Except.ok _ => (Except.ok pubCompressed, ks1)

/-- A pub-key map for the counterexample: the compressed public key of a
secret key is modelled as the key itself (the concrete curve map is
irrelevant to the atomicity question). -/
def pubIdEx (sk : Bytes) : Bytes := sk

/-- A marshaller that always succeeds (as `json.Marshal` does on this map). -/
def marshalOkEx (_ : List (Bytes × EncryptedData)) : Option Bytes := some []

/-- A storage whose `Write` always fails, e.g. a full or read-only disk. -/
def writeFailEx (_ : Bytes) : Except String Unit := Except.error "disk full"

/-- An initially empty key store. -/
def ksEmptyEx : KeyStoreState :=
  { params := { scryptN := 4096, scryptP := 6 }, encryptedKeys := [], cache := [] }

/-- C2: refuted on the code. Importing the key `[1]` into an empty store whose
storage `Write` fails makes `ImportKey` return the write error, yet `Keys` on
the same instance afterward returns `[[1]]`, not the pre-call empty set: the
record was inserted into the in-memory map before the failed persist and is
not rolled back. -/
theorem importKey_write_failure_not_rolled_back_cex :
    (ImportKey cryptoId pubIdEx marshalOkEx writeFailEx ksEmptyEx [1] [9] [] []).1 =
      Except.error "disk full" ∧
    Keys (ImportKey cryptoId pubIdEx marshalOkEx writeFailEx ksEmptyEx [1] [9] [] []).2 =
      [[1]] ∧
    Keys ksEmptyEx = [] ∧
    ([[1]] : List Bytes) ≠ [] := by
  refine ⟨rfl, rfl, rfl, by decide⟩

/-- C2 as amended: when `EncryptData` succeeds but serialization or
`storage.Write` fails, `ImportKey` returns the error, yet the new record has
already been inserted into the in-memory map: the imported public key is an
element of `Keys` afterward. (Only a failure inside `EncryptData` leaves the
map untouched.) -/
theorem importKey_write_failure_keeps_record (c : Crypto) (pub : Bytes → Bytes)
    (marshal : List (Bytes × EncryptedData) → Option Bytes)
    (write : Bytes → Except String Unit)
    (ks : KeyStoreState) (sk pass salt nonce : Bytes)
    (enc : EncryptedData) (json : Bytes) (err : String)
    (henc : EncryptData c sk pass ks.params.scryptN ks.params.scryptP salt nonce =
      some enc)
    (hm : marshal (mapInsert ks.encryptedKeys (pub sk) enc) = some json)
    (hw : write json = Except.error err) :
    (ImportKey c pub marshal write ks sk pass salt nonce).1 = Except.error err ∧
    (ImportKey c pub marshal write ks sk pass salt nonce).2.encryptedKeys =
      mapInsert ks.encryptedKeys (pub sk) enc ∧
    pub sk ∈ Keys (ImportKey c pub marshal write ks sk pass salt nonce).2 := by
  have hstep : ImportKey c pub marshal write ks sk pass salt nonce =
      (Except.error err,
        { ks with encryptedKeys := mapInsert ks.encryptedKeys (pub sk) enc }) := by
    unfold ImportKey
    simp only [henc, hm, hw]
  refine ⟨by rw [hstep], by rw [hstep], ?_⟩
  rw [hstep]
  show pub sk ∈ (mapInsert ks.encryptedKeys (pub sk) enc).map Prod.fst
  unfold mapInsert
  by_cases hmem : ks.encryptedKeys.any (fun kv => kv.1 = pub sk)
  · simp only [hmem, if_true, List.map_map, List.mem_map]
    simp only [List.any_eq_true, decide_eq_true_eq] at hmem
    obtain ⟨kv, hkv, heq⟩ := hmem
    exact ⟨kv, hkv, by simp [Function.comp, heq]⟩
  · simp [hmem]

/-- Witness for the amended C2 at the concrete counterexample inputs. -/
theorem importKey_write_failure_keeps_record_witness :
    (ImportKey cryptoId pubIdEx marshalOkEx writeFailEx ksEmptyEx [1] [9] [] []).1 =
      Except.error "disk full" ∧
    pubIdEx [1] ∈
      Keys (ImportKey cryptoId pubIdEx marshalOkEx writeFailEx ksEmptyEx [1] [9] [] []).2 := by
  have h := importKey_write_failure_keeps_record cryptoId pubIdEx marshalOkEx
    writeFailEx ksEmptyEx [1] [9] [] []
    { salt := [], scryptN := 4096, scryptP := 6, nonce := [],
      encryptedData := [1] } [] "disk full" rfl rfl rfl
  exact ⟨h.1, h.2.2⟩

/-- The successive contents of the data file during `FileStorage.Write`, which
is exactly `ioutil.WriteFile(fs.path, data, 0600)`: WriteFile opens the data
file itself with `O_WRONLY|O_CREATE|O_TRUNC` — truncating it to empty — and
then writes `data` into it. There is no temporary file and no rename, so the
observable file contents in order are: the old contents, empty (after the
truncating open), the new contents. -/
def fileStorageWriteStates (old data : Bytes) : List Bytes :=
  [old, [], data]

/-- C4: refuted on the code. With prior contents `[1]` and new contents `[2]`,
the data file passes through the empty state, which is neither the full old
nor the full new contents: `FileStorage.Write` truncates and rewrites the data
file in place instead of writing a temporary file and renaming it, so an
interruption mid-write corrupts previously persisted content. -/
theorem fileStorageWrite_not_atomic :
    [] ∈ fileStorageWriteStates [1] [2] ∧
    ¬ (∀ s ∈ fileStorageWriteStates [1] [2], s = [1] ∨ s = [2]) ∧
    (fileStorageWriteStates [1] [2]).getLast? = some [2] := by
  decide

/-- Errors surfaced by the storage layer reads (`ioutil.ReadFile`). -/
inductive IOError
  | notExist
  | other (msg : String)
deriving DecidableEq, Repr

/-- `FileStorage.Read`, which is `ioutil.ReadFile(fs.path)`: the backing file
is `none` when absent, and reading an absent file returns the not-exist
error — not empty bytes. -/
def fileStorageRead (file : Option Bytes) : Except IOError Bytes :=
  match file with
  | none => Except.error IOError.notExist
  | some contents => Except.ok contents

/-- `MemStorage.Read`: returns the slice contents, never an error. -/
def memStorageRead (ms : Bytes) : Except IOError Bytes :=
  Except.ok ms

/-- C6: refuted on the code for the file-backed realization. Reading an absent
backing file returns the not-exist error, not `ok []`. -/
theorem fileStorageRead_absent_is_error_cex :
    fileStorageRead none = Except.error IOError.notExist ∧
    fileStorageRead none ≠ Except.ok [] := by
  exact ⟨rfl, fun h => by simp [fileStorageRead] at h⟩

/-- The storage a `NewKeyStore` call sees, abstracted to the two observations
the code makes: whether `storage.Lock()` succeeds, and what `storage.Read()`
returns. -/
structure StorageModel where
  lockOk : Bool
  readResult : Except IOError Bytes

/-- Errors returned by `NewKeyStore`. -/
inductive KSError
  | storeLocked
  | readError (e : IOError)
  | corruptStore
deriving DecidableEq, Repr

/-- `NewKeyStore` from keystore.go, with `json.Unmarshal` of the key map
abstracted as `parse`. Returns the Go result together with whether the storage
lock is still held when the call returns (the code calls `storage.Unlock()`
before returning the read and parse errors). A not-exist read error is turned
into empty contents; empty contents yield an empty key map; the cache of a
successfully opened store is empty. -/
def NewKeyStore (parse : Bytes → Option (List (Bytes × EncryptedData)))
    (st : StorageModel) (params : KeyStoreParams) :
    Except KSError KeyStoreState × Bool :=
  if st.lockOk = false then
    (Except.error KSError.storeLocked, false)
  else
    let afterNotExist : Except IOError Bytes :=
      match st.readResult with
      | Except.error IOError.notExist => Except.ok []
      | r => r
    match afterNotExist with
    | Except.error e => (Except.error (KSError.readError e), false)
    | Except.ok encryptedKeysJSON =>
      if encryptedKeysJSON.length = 0 then
        (Except.ok { params := params, encryptedKeys := [], cache := [] }, true)
      else
        match parse encryptedKeysJSON with
        | none => (Except.error KSError.corruptStore, false)
        | some encryptedKeys =>
          (Except.ok { params := params, encryptedKeys := encryptedKeys,
                       cache := [] }, true)

/-- C6 as amended: `MemStorage.Read` returns the slice and never errors;
`FileStorage.Read` on an absent file returns the not-exist error rather than
empty bytes; `NewKeyStore` compensates by treating exactly that error as empty
contents, so opening a store over an absent backing file succeeds with an
empty key map. -/
theorem storageRead_absent_amended
    (parse : Bytes → Option (List (Bytes × EncryptedData)))
    (params : KeyStoreParams) (ms : Bytes) :
    memStorageRead ms = Except.ok ms ∧
    fileStorageRead none = Except.error IOError.notExist ∧
    NewKeyStore parse { lockOk := true, readResult := fileStorageRead none } params =
      (Except.ok { params := params, encryptedKeys := [], cache := [] }, true) := by
  exact ⟨rfl, rfl, rfl⟩

theorem storageRead_absent_amended_witness :
    memStorageRead [] = Except.ok [] ∧
    fileStorageRead none = Except.error IOError.notExist ∧
    NewKeyStore (fun _ => none)
        { lockOk := true, readResult := fileStorageRead none }
        { scryptN := 4096, scryptP := 6 } =
      (Except.ok { params := { scryptN := 4096, scryptP := 6 },
                   encryptedKeys := [], cache := [] }, true) :=
  storageRead_absent_amended (fun _ => none) { scryptN := 4096, scryptP := 6 } []

/-- C7: `NewKeyStore` acquires the storage lock first and fails (without
holding the lock) when `Lock` fails, whatever `Read` would have returned; an
empty blob yields a store with an empty key map; a nonempty blob that does not
parse yields the corrupt-store error with the lock released before returning;
and every successfully opened store has an empty decrypted-key cache. -/
theorem newKeyStore_open_behavior
    (parse : Bytes → Option (List (Bytes × EncryptedData)))
    (params : KeyStoreParams) :
    (∀ rr, NewKeyStore parse { lockOk := false, readResult := rr } params =
      (Except.error KSError.storeLocked, false)) ∧
    (NewKeyStore parse { lockOk := true, readResult := Except.ok [] } params =
      (Except.ok { params := params, encryptedKeys := [], cache := [] }, true)) ∧
    (∀ bs, bs ≠ [] → parse bs = none →
      NewKeyStore parse { lockOk := true, readResult := Except.ok bs } params =
        (Except.error KSError.corruptStore, false)) ∧
    (∀ st ks locked, NewKeyStore parse st params = (Except.ok ks, locked) →
      ks.cache = [] ∧ locked = true) := by
  refine ⟨fun rr => rfl, rfl, ?_, ?_⟩
  · intro bs hne hparse
    have hlen : ¬ bs.length = 0 := by
      simpa [List.length_eq_zero] using hne
    simp [NewKeyStore, hlen, hparse]
  · intro st ks locked h
    unfold NewKeyStore at h
    by_cases hlock : st.lockOk = false
    · simp [hlock] at h
    · simp only [if_neg hlock] at h
      cases hr : (match st.readResult with
        | Except.error IOError.notExist => Except.ok []
        | r => r : Except IOError Bytes) with
      | error e => rw [hr] at h; exact absurd h (by simp)
      | ok bs =>
        rw [hr] at h
        by_cases hlen : bs.length = 0
        · simp only [hlen, if_true, Prod.mk.injEq, Except.ok.injEq] at h
          exact ⟨by rw [← h.1], h.2.symm⟩
        · simp only [hlen, if_false] at h
          cases hp : parse bs with
          | none => rw [hp] at h; exact absurd h (by simp)
          | some m =>
            rw [hp] at h
            simp only [Prod.mk.injEq, Except.ok.injEq] at h
            exact ⟨by rw [← h.1], h.2.symm⟩

/-- Witness for C7 at concrete inputs: a parser that rejects everything, a
locked-out storage, an empty blob, and a malformed nonempty blob. -/
theorem newKeyStore_open_behavior_witness :
    NewKeyStore (fun _ => none)
        { lockOk := false, readResult := Except.ok [1] }
        { scryptN := 4096, scryptP := 6 } =
      (Except.error KSError.storeLocked, false) ∧
    NewKeyStore (fun _ => none)
        { lockOk := true, readResult := Except.ok [] }
        { scryptN := 4096, scryptP := 6 } =
      (Except.ok { params := { scryptN := 4096, scryptP := 6 },
                   encryptedKeys := [], cache := [] }, true) ∧
    NewKeyStore (fun _ => none)
        { lockOk := true, readResult := Except.ok [1] }
        { scryptN := 4096, scryptP := 6 } =
      (Except.error KSError.corruptStore, false) := by
  have h := newKeyStore_open_behavior (fun _ => none) { scryptN := 4096, scryptP := 6 }
  exact ⟨h.1 (Except.ok [1]), h.2.1, h.2.2.1 [1] (by decide) rfl⟩

theorem mapLookup_map_value {α β γ : Type} [DecidableEq α]
    (m : List (α × β)) (f : β → γ) (k : α) :
    mapLookup (m.map (fun kv => (kv.1, f kv.2))) k = (mapLookup m k).map f := by
  induction m with
  | nil => rfl
  | cons kv rest ih =>
    by_cases h : kv.1 = k <;> simp [mapLookup, h, ih]

/-- The disposal routine of a key store: the finalizer body registered by
`NewKeyStore` via `runtime.SetFinalizer`. It copies 32 zero bytes over the
backing array of every cached secret key (`copy(sk[:], zero[:])`, a full
overwrite since `babyjub.PrivKey` is `[32]byte`) and then calls
`ks.storage.Unlock()`. The returned Bool is whether the storage lock is still
held afterward. -/
def disposeKeyStore (ks : KeyStoreState) : KeyStoreState × Bool :=
  ({ ks with cache := ks.cache.map (fun kv => (kv.1, List.replicate 32 0)) }, false)

/-- C8: after disposal every cached secret key's 32-byte buffer is all zeros
(a full overwrite of the backing bytes), the set of cached public keys is
otherwise untouched, and the storage lock has been released. -/
theorem disposeKeyStore_zeroes_cache_and_unlocks (ks : KeyStoreState) :
    (∀ pk sk, mapLookup (disposeKeyStore ks).1.cache pk = some sk →
      sk = List.replicate 32 0 ∧ sk.length = 32 ∧ ∀ b ∈ sk, b = 0) ∧
    (disposeKeyStore ks).1.cache.map Prod.fst = ks.cache.map Prod.fst ∧
    (disposeKeyStore ks).1.encryptedKeys = ks.encryptedKeys ∧
    (disposeKeyStore ks).2 = false := by
  refine ⟨?_, by simp [disposeKeyStore], rfl, rfl⟩
  intro pk sk hlook
  have : mapLookup (ks.cache.map (fun kv => (kv.1, List.replicate 32 0))) pk =
      (mapLookup ks.cache pk).map (fun _ => List.replicate 32 0) :=
    mapLookup_map_value ks.cache (fun _ => List.replicate 32 0) pk
  rw [show (disposeKeyStore ks).1.cache =
        ks.cache.map (fun kv => (kv.1, List.replicate 32 0)) from rfl, this] at hlook
  cases hm : mapLookup ks.cache pk with
  | none => rw [hm] at hlook; exact absurd hlook (by simp)
  | some v =>
    rw [hm] at hlook
    simp only [Option.map_some', Option.some.injEq] at hlook
    subst hlook
    exact ⟨rfl, by simp, fun b hb => List.eq_of_mem_replicate hb⟩

/-- Witness for C8: a store with one cached (nonzero) secret key. -/
def ksCachedEx : KeyStoreState :=
  { params := { scryptN := 4096, scryptP := 6 },
    encryptedKeys := [([5], encDataEx)],
    cache := [([5], List.replicate 32 7)] }

theorem disposeKeyStore_zeroes_cache_and_unlocks_witness :
    (∀ b ∈ List.replicate 32 0, b = 0) ∧
    (disposeKeyStore ksCachedEx).1.cache.map Prod.fst = [[5]] ∧
    (disposeKeyStore ksCachedEx).2 = false := by
  have h := disposeKeyStore_zeroes_cache_and_unlocks ksCachedEx
  refine ⟨?_, by rw [h.2.1]; rfl, h.2.2.2⟩
  have hl : mapLookup (disposeKeyStore ksCachedEx).1.cache [5] =
      some (List.replicate 32 0) := by
    simp [disposeKeyStore, ksCachedEx, mapLookup]
  exact (h.1 [5] (List.replicate 32 0) hl).2.2

/-- `VerifySignatureElem` from keystore.go, with the babyjub collaborators as
parameters over abstract point and signature types: `decompressPoint` models
`babyjub.NewPoint().Decompress`, `decompressSig` models
`new(babyjub.Signature).Decompress`, and `verifyMimc7 p m s` models
`pk.VerifyMimc7(m, s)`. A decompression failure is returned as an error; a
successful decode returns the library's verification boolean with a nil
error. -/
def VerifySignatureElem {Pt Sg : Type} (decompressPoint : Bytes → Option Pt)
    (decompressSig : Bytes → Option Sg) (verifyMimc7 : Pt → Nat → Sg → Bool)
    (pkComp : Bytes) (msg : Nat) (sigComp : Bytes) : Except String Bool :=
  match decompressPoint pkComp with
  | none => Except.error "point decompression failed"
  | some pkPoint =>
    match decompressSig sigComp with
    | none => Except.error "signature decompression failed"
    | some sig => Except.ok (verifyMimc7 pkPoint msg sig)

/-- `VerifySignature` from keystore.go: verify against the mimc7 hash of the
message bytes. -/
def VerifySignature {Pt Sg : Type} (decompressPoint : Bytes → Option Pt)
    (decompressSig : Bytes → Option Sg) (verifyMimc7 : Pt → Nat → Sg → Bool)
    (hash : List Nat → Nat) (pkComp : Bytes) (msg : Bytes) (sigComp : Bytes) :
    Except String Bool :=
  VerifySignatureElem decompressPoint decompressSig verifyMimc7
    pkComp (mimc7HashBytes hash msg) sigComp

/-- C9: when both the compressed point and the compressed signature decode,
`VerifySignatureElem` returns the verification boolean with no error — in
particular `ok false`, not an error, for a cryptographically wrong signature —
and it returns an error exactly when the point or the signature fails to
decompress; `VerifySignature` is `VerifySignatureElem` at the mimc7 hash of
the message. -/
theorem verifySignatureElem_false_not_error {Pt Sg : Type}
    (decompressPoint : Bytes → Option Pt) (decompressSig : Bytes → Option Sg)
    (verifyMimc7 : Pt → Nat → Sg → Bool) (pkComp sigComp : Bytes) (msg : Nat) :
    (∀ p s, decompressPoint pkComp = some p → decompressSig sigComp = some s →
      VerifySignatureElem decompressPoint decompressSig verifyMimc7 pkComp msg sigComp =
        Except.ok (verifyMimc7 p msg s)) ∧
    ((∃ e, VerifySignatureElem decompressPoint decompressSig verifyMimc7
        pkComp msg sigComp = Except.error e) ↔
      (decompressPoint pkComp = none ∨ decompressSig sigComp = none)) ∧
    (∀ hash msgBytes, VerifySignature decompressPoint decompressSig verifyMimc7
        hash pkComp msgBytes sigComp =
      VerifySignatureElem decompressPoint decompressSig verifyMimc7
        pkComp (mimc7HashBytes hash msgBytes) sigComp) := by
  refine ⟨?_, ?_, fun _ _ => rfl⟩
  · intro p s hp hs
    unfold VerifySignatureElem
    simp only [hp, hs]
  · cases hp : decompressPoint pkComp with
    | none =>
      constructor
      · intro _; exact Or.inl rfl
      · intro _
        exact ⟨"point decompression failed", by unfold VerifySignatureElem; simp [hp]⟩
    | some p =>
      cases hs : decompressSig sigComp with
      | none =>
        constructor
        · intro _; exact Or.inr rfl
        · intro _
          exact ⟨"signature decompression failed",
            by unfold VerifySignatureElem; simp [hp, hs]⟩
      | some s =>
        constructor
        · rintro ⟨e, he⟩
          unfold VerifySignatureElem at he
          simp [hp, hs] at he
        · rintro (h | h) <;> simp_all

/-- Witness for C9: decoders that accept the concrete inputs and a verifier
that rejects, yielding `ok false` and no error. -/
theorem verifySignatureElem_false_not_error_witness :
    VerifySignatureElem (fun _ => some 0) (fun _ => some 0)
      (fun _ _ _ => false) [1] 5 [2] = Except.ok false ∧
    ¬ ((fun _ : Bytes => some (0 : Nat)) [1] = none ∨
        (fun _ : Bytes => some (0 : Nat)) [2] = none) := by
  have h := @verifySignatureElem_false_not_error Nat Nat
    (fun _ => some 0) (fun _ => some 0) (fun _ _ _ => false) [1] [2] 5
  exact ⟨h.1 0 0 rfl rfl, fun hc => by rcases hc with hc | hc <;> simp at hc⟩

end Keystore
